import Mathlib

/-!
Verification of the `log_db` record store against its specification.

The definitions below are a shallow embedding of the Rust sources:

* `src/log_db/src/common.rs` — record codec (`RecordValue`, `Record`),
  `LogKey`, `LogKeySet`, `MetadataHeader`;
* `src/log_db/src/log_reader_forward.rs` — the forward log reader;
* `src/log_db/src/engine.rs` — `batch_upsert_records`, `read_tagged_log_keys`,
  `delete_by_field`, `do_maintenance_tasks`, `rotate_and_compact`.

Files are byte lists (`List Nat`, each element < 256 where produced by the
code).  Machine integers are `Nat`/`Int` with explicit reductions modulo
`2 ^ 64` where the Rust code relies on fixed-width arithmetic.  Fallible
operations (I/O errors, panics) return `Option`/`Except`.

A few items used by `engine.rs` live in the crate root (`lib.rs`), which is
not among the provided sources; those definitions carry a doc comment
starting with "Modelled from the spec:" and follow the specification text.
-/

set_option maxRecDepth 8192

namespace LogDb

/-! ## Definitions -/

/-! ### Big-endian byte encoding (`to_be_bytes` / `from_be_bytes` on `u64`) -/

/-- Big-endian encoding of `n` into `w` bytes, most significant byte first.
Mirrors Rust `u64::to_be_bytes` when `w = 8` (higher bits of `n` are cut off,
as a cast to `u64` would do). -/
def beBytes : Nat → Nat → List Nat
  | 0, _ => []
  | w + 1, n => (n / 2 ^ (8 * w)) % 256 :: beBytes w n

/-- `u64::to_be_bytes`. -/
def u64be (n : Nat) : List Nat := beBytes 8 n

/-- `u64::from_be_bytes`: fold the bytes most-significant first. -/
def fromBe (l : List Nat) : Nat := l.foldl (fun acc b => acc * 256 + b) 0

/-- The `u64` bit pattern of an `i64`, as used by `i64::to_be_bytes`. -/
def i64ToU64 (i : Int) : Nat := (i % (2 : Int) ^ 64).toNat

/-- Recover an `i64` from its `u64` bit pattern, as `i64::from_be_bytes` does. -/
def u64ToI64 (n : Nat) : Int := if n < 2 ^ 63 then (n : Int) else (n : Int) - 2 ^ 64

/-! ### Record codec (`common.rs`: `RecordValue`, and the engine's `Record`)

`RecordValue::serialize` / `RecordValue::deserialize` are embedded from
`common.rs`.  Rust `f64` payloads are represented by their 64-bit pattern
(serialization moves only the bit pattern via `to_be_bytes`); Rust `String`
payloads are represented by their UTF-8 byte list. -/

/-- `RecordValue` from `common.rs`. -/
inductive Value where
  | null
  | int (i : Int)
  | float (bits : Nat)
  | str (s : List Nat)
  | bytes (b : List Nat)
deriving DecidableEq, Repr

/-- `IndexableValue` from `common.rs`. -/
inductive IndexableValue where
  | int (i : Int)
  | str (s : List Nat)
deriving DecidableEq, Repr

/-- `RecordValue::serialize`: a 1-byte tag, then a big-endian payload. -/
def Value.serialize : Value → List Nat
  | .null => [0]
  | .int i => 1 :: u64be (i64ToU64 i)
  | .float bits => 2 :: u64be bits
  | .str s => 3 :: (u64be s.length ++ s)
  | .bytes b => 4 :: (u64be b.length ++ b)

/-- `RecordValue::deserialize`: returns the value and the number of bytes
consumed.  The Rust code panics on an unknown tag or an out-of-bounds slice;
those cases are `none`. -/
def Value.deserialize (bytes : List Nat) : Option (Value × Nat) :=
  match bytes with
  | [] => none
  | tag :: rest =>
    if tag = 0 then some (.null, 1)
    else if tag = 1 then
      if 8 ≤ rest.length then some (.int (u64ToI64 (fromBe (rest.take 8))), 1 + 8) else none
    else if tag = 2 then
      if 8 ≤ rest.length then some (.float (fromBe (rest.take 8)), 1 + 8) else none
    else if tag = 3 then
      if 8 ≤ rest.length then
        let len := fromBe (rest.take 8)
        if 8 + len ≤ rest.length then some (.str ((rest.drop 8).take len), 1 + 8 + len)
        else none
      else none
    else if tag = 4 then
      if 8 ≤ rest.length then
        let len := fromBe (rest.take 8)
        if 8 + len ≤ rest.length then some (.bytes ((rest.drop 8).take len), 1 + 8 + len)
        else none
      else none
    else none

/-- `as_indexable` from `common.rs`. -/
def Value.asIndexable : Value → Option IndexableValue
  | .int i => some (.int i)
  | .str s => some (.str s)
  | _ => none

/-- Modelled from the spec: the engine's `Record` struct lives in the crate
root (`lib.rs`), which is not among the provided sources; `engine.rs` uses its
`tombstone` flag and the integration test's byte accounting counts the
tombstone byte ("1 // tombstone tag").  Per §3 and §6 of the spec a record is
"an ordered sequence of Values plus a tombstone flag". -/
structure Record where
  tombstone : Bool
  values : List Value
deriving DecidableEq, Repr

/-- Modelled from the spec: "A Record serializes as a tombstone byte followed
by the concatenation of its values" (§4.1, §6); `Record::serialize` of the
engine's record type is in the crate root, not among the provided sources. -/
def Record.serialize (r : Record) : List Nat :=
  (if r.tombstone then 1 else 0) :: (r.values.map Value.serialize).flatten

/-- Parse a sequence of serialized values until the input is exhausted,
with an explicit fuel argument (each value consumes at least one byte). -/
def deserializeValues : Nat → List Nat → Option (List Value)
  | _, [] => some []
  | 0, _ :: _ => none
  | fuel + 1, l => do
    let (v, n) ← Value.deserialize l
    let vs ← deserializeValues fuel (l.drop (max n 1))
    pure (v :: vs)

/-- Modelled from the spec: "tombstone byte (0 or 1) followed by value
tag+payload sequence" (§6); `Record::deserialize` of the engine's record type
is in the crate root, not among the provided sources.  Deserialization
consumes the buffer exactly. -/
def Record.deserialize (bytes : List Nat) : Option Record :=
  match bytes with
  | [] => none
  | t :: rest => do
    let vs ← deserializeValues rest.length rest
    pure { tombstone := t == 1, values := vs }

/-- Rust-level well-formedness of a value: machine integers fit their width
and payload lengths fit in `usize`/`u64`.  Any value held in a Rust
`RecordValue` satisfies this. -/
def Value.wf : Value → Prop
  | .null => True
  | .int i => -(2 : Int) ^ 63 ≤ i ∧ i < 2 ^ 63
  | .float bits => bits < 2 ^ 64
  | .str s => s.length < 2 ^ 64
  | .bytes b => b.length < 2 ^ 64

instance : DecidablePred Value.wf := by
  intro v
  cases v <;> simp [Value.wf] <;> infer_instance

/-- A record is well-formed when all its values are. -/
def Record.wf (r : Record) : Prop := ∀ v ∈ r.values, v.wf

/-- Field types from the schema (`RecordFieldType`/`Type` in the sources). -/
inductive PrimitiveType where
  | int | float | string | bytes
deriving DecidableEq, Repr

/-- A schema entry: a primitive type plus a nullability flag. -/
structure FieldType where
  primitive : PrimitiveType
  nullable : Bool
deriving DecidableEq, Repr

/-- Modelled from the spec: "Type-checking against a schema entry is a pure
function on tag and nullability" (§9); `type_check` is in the crate root, not
among the provided sources. -/
def typeCheck : Value → FieldType → Bool
  | .null, t => t.nullable
  | .int _, t => t.primitive == .int
  | .float _, t => t.primitive == .float
  | .str _, t => t.primitive == .string
  | .bytes _, t => t.primitive == .bytes

/-- A record is well-typed against a schema: field counts match and each
value type-checks positionally. -/
def Record.wellTyped (schema : List FieldType) (r : Record) : Prop :=
  r.values.length = schema.length ∧
    ∀ p ∈ r.values.zip schema, typeCheck p.1 p.2 = true

instance : DecidablePred Record.wf := fun r => List.decidableBAll Value.wf r.values

instance (schema : List FieldType) (r : Record) : Decidable (r.wellTyped schema) := by
  unfold Record.wellTyped
  infer_instance

/-! ### LogKey (`common.rs`) -/

/-- `LogKey::new`: pack `(segment_num << 48) | index`.  The Rust code asserts
`index < (1 << 48)`; `segment_num` is a `u16`. -/
def LogKey.new (segmentNum index : Nat) : Nat := (segmentNum <<< 48) ||| index

/-- `LogKey::segment_num`: `(self.0 >> 48) as u16`. -/
def LogKey.segmentNum (k : Nat) : Nat := (k >>> 48) % 2 ^ 16

/-- `LogKey::index`: `self.0 & 0x0000_FFFF_FFFF_FFFF`. -/
def LogKey.index (k : Nat) : Nat := k &&& (2 ^ 48 - 1)

/-! ### LogKeySet (`common.rs`) -/

/-- The error kinds returned by `LogKeySet::remove` (and by the reader). -/
inductive IOErrorKind where
  | invalidInput
  | notFound
  | unexpectedEof
deriving DecidableEq, Repr

/-- `LogKeySet::remove`.  The Rust method mutates the set and returns a
`Result`; here it returns the result together with the resulting set
(`HashSet<LogKey>` is a `Finset` of packed keys).  Removing from a set of
size one fails before touching the set; `HashSet::remove` of an absent key
leaves the set unchanged (`Finset.erase` of a non-member is the identity). -/
def logKeySetRemove (s : Finset Nat) (key : Nat) : Except IOErrorKind Unit × Finset Nat :=
  if s.card = 1 then (.error .invalidInput, s)
  else
    let removed := key ∈ s
    if removed then (.ok (), s.erase key) else (.error .notFound, s.erase key)

/-! ### Forward log reader (`log_reader_forward.rs`)

The reader state holds both files and the two buffered-reader positions.
`ForwardLogReader::new_with_index` seeks the metadata reader to
`24 + 16 * index`; the data reader starts at 0. -/

structure ForwardLogReader where
  meta : List Nat
  data : List Nat
  metaPos : Nat
  dataPos : Nat
deriving DecidableEq, Repr

structure ForwardLogReaderItem where
  metadataIndex : Nat
  dataOffset : Nat
  dataLength : Nat
  record : Record
deriving DecidableEq, Repr

/-- Errors surfaced by `read_record` as `Err` (the `Iterator` impl panics on
them): a short read on the data file, or a `Record::deserialize` panic. -/
inductive ReadError where
  | dataEof
  | invalidTag
deriving DecidableEq, Repr

def ForwardLogReader.newWithIndex (meta data : List Nat) (index : Nat) : ForwardLogReader :=
  { meta := meta, data := data, metaPos := 24 + 16 * index, dataPos := 0 }

/-- The `u64` subtraction `data_offset - self.data_reader.stream_position()?`
computed by `read_record` before the relative seek, viewed in `Int` so that
an underflow of the unsigned subtraction shows up as a negative value. -/
def seekDistance (dataOffset streamPos : Nat) : Int := (dataOffset : Int) - streamPos

/-- `ForwardLogReader::read_record`.  `.ok none` is end-of-stream: the
metadata `read_exact` maps `UnexpectedEof` to `Ok(None)`, which triggers both
on exact EOF and when fewer than 16 bytes remain.  A short data read
propagates as an error; after a successful read the data position is
`data_offset + data_length`. -/
def readRecord (st : ForwardLogReader) :
    Except ReadError (Option (ForwardLogReaderItem × ForwardLogReader)) :=
  let metadataIndex := (st.metaPos - 24) / 16
  if st.meta.length < st.metaPos + 16 then
    .ok none
  else
    let row := (st.meta.drop st.metaPos).take 16
    let dataOffset := fromBe (row.take 8)
    let dataLength := fromBe ((row.drop 8).take 8)
    if st.data.length < dataOffset + dataLength then
      .error .dataEof
    else
      match Record.deserialize ((st.data.drop dataOffset).take dataLength) with
      | none => .error .invalidTag
      | some record =>
        .ok (some ({ metadataIndex := metadataIndex, dataOffset := dataOffset,
                     dataLength := dataLength, record := record },
          { st with metaPos := st.metaPos + 16, dataPos := dataOffset + dataLength }))

instance exceptDecEq {ε α : Type} [DecidableEq ε] [DecidableEq α] :
    DecidableEq (Except ε α) := fun a b =>
  match a, b with
  | .error x, .error y =>
    if h : x = y then .isTrue (h ▸ rfl) else .isFalse (fun c => h (Except.error.inj c))
  | .ok x, .ok y =>
    if h : x = y then .isTrue (h ▸ rfl) else .isFalse (fun c => h (Except.ok.inj c))
  | .error _, .ok _ => .isFalse (fun c => Except.noConfusion c)
  | .ok _, .error _ => .isFalse (fun c => Except.noConfusion c)

/-- Drain the iterator: collect items until end-of-stream (or an error).
`fuel` bounds the recursion; any `fuel` larger than the number of remaining
rows is enough. -/
def runReader : Nat → ForwardLogReader → Except ReadError (List ForwardLogReaderItem)
  | 0, _ => .ok []
  | fuel + 1, st =>
    match readRecord st with
    | .error e => .error e
    | .ok none => .ok []
    | .ok (some (item, st')) =>
      match runReader fuel st' with
      | .error e => .error e
      | .ok items => .ok (item :: items)

/-- The list of seek distances computed by successive `read_record` calls
(each one computed right after the 16-byte metadata row is read, before the
data read). -/
def runSeekDistances : Nat → ForwardLogReader → List Int
  | 0, _ => []
  | fuel + 1, st =>
    if st.meta.length < st.metaPos + 16 then []
    else
      let row := (st.meta.drop st.metaPos).take 16
      let dataOffset := fromBe (row.take 8)
      let dataLength := fromBe ((row.drop 8).take 8)
      seekDistance dataOffset st.dataPos ::
        (if st.data.length < dataOffset + dataLength then []
         else
           match Record.deserialize ((st.data.drop dataOffset).take dataLength) with
           | none => []
           | some _ =>
             runSeekDistances fuel
               { st with metaPos := st.metaPos + 16, dataPos := dataOffset + dataLength })

/-- A 16-byte metadata row `(data_offset: u64 BE, data_length: u64 BE)`. -/
def encodeRow (row : Nat × Nat) : List Nat := u64be row.1 ++ u64be row.2

/-- A metadata file: a 24-byte header, the encoded rows, and (possibly)
trailing bytes that do not form a complete row. -/
def mkMeta (hdr : List Nat) (rows : List (Nat × Nat)) (extra : List Nat) : List Nat :=
  hdr ++ (rows.map encodeRow).flatten ++ extra

/-- The non-overlap discipline of rows as the append path writes them: each
row starts at or after the end of the region consumed so far. -/
def rowsChainFrom : Nat → List (Nat × Nat) → Prop
  | _, [] => True
  | pos, (off, len) :: rest => pos ≤ off ∧ rowsChainFrom (off + len) rest

/-- Offsets of a row list are non-decreasing (the precondition claimed by
C10). -/
def offsetsMonotone : List (Nat × Nat) → Prop
  | [] => True
  | [_] => True
  | (o1, _) :: (o2, l2) :: rest => o1 ≤ o2 ∧ offsetsMonotone ((o2, l2) :: rest)

instance offsetsMonotoneDec : (rows : List (Nat × Nat)) → Decidable (offsetsMonotone rows)
  | [] => .isTrue trivial
  | [_] => .isTrue trivial
  | (o1, _) :: (o2, l2) :: rest =>
    have : Decidable (offsetsMonotone ((o2, l2) :: rest)) := offsetsMonotoneDec _
    decidable_of_iff (o1 ≤ o2 ∧ offsetsMonotone ((o2, l2) :: rest)) Iff.rfl

instance rowsChainFromDec : (pos : Nat) → (rows : List (Nat × Nat)) → Decidable (rowsChainFrom pos rows)
  | _, [] => .isTrue trivial
  | pos, (off, len) :: rest =>
    have : Decidable (rowsChainFrom (off + len) rest) := rowsChainFromDec _ _
    decidable_of_iff (pos ≤ off ∧ rowsChainFrom (off + len) rest) Iff.rfl

/-- The metadata rows remaining to be visited by a reader positioned at
`pos`: decode 16-byte rows until fewer than 16 bytes remain. -/
def pendingRows (meta : List Nat) (pos : Nat) : List (Nat × Nat) :=
  if meta.length < pos + 16 then []
  else
    let row := (meta.drop pos).take 16
    (fromBe (row.take 8), fromBe ((row.drop 8).take 8)) :: pendingRows meta (pos + 16)
termination_by meta.length - pos
decreasing_by omega

/-- Well-formedness of one metadata row `(offset, length)` paired with the
record stored at that position: the two `u64`s are in range, the byte range
lies within the data file, and it deserializes to the record. -/
def rowOk (data : List Nat) (p : (Nat × Nat) × Record) : Prop :=
  p.1.1 < 2 ^ 64 ∧ p.1.2 < 2 ^ 64 ∧ p.1.1 + p.1.2 ≤ data.length ∧
    Record.deserialize ((data.drop p.1.1).take p.1.2) = some p.2

instance (data : List Nat) (p : (Nat × Nat) × Record) : Decidable (rowOk data p) := by
  unfold rowOk
  infer_instance

/-- The items the reader is expected to yield for the given rows/records,
starting at metadata index `i`. -/
def expectedItems : Nat → List ((Nat × Nat) × Record) → List ForwardLogReaderItem
  | _, [] => []
  | i, ((o, l), r) :: rest =>
    { metadataIndex := i, dataOffset := o, dataLength := l, record := r } ::
      expectedItems (i + 1) rest

/-! ### Engine: batch upsert and materialization (`engine.rs`) -/

/-- The active segment's pair of files: the data file and the metadata file
(the metadata list includes the 24-byte header). -/
structure SegmentFiles where
  data : List Nat
  meta : List Nat
deriving DecidableEq, Repr

/-- The per-record loop of `batch_upsert_records` (engine.rs lines 246-271).
Both `seek(SeekFrom::End(0))` calls read the on-disk sizes, and the loop only
accumulates `serialized_data` / `serialized_metadata` in memory — the files
are appended to by the two `write_all` calls *after* the loop — so inside the
loop both sizes stay at their pre-batch values for every record. -/
def upsertLoop (dataFile metaFile : List Nat) (segmentNum : Nat) :
    List Record → List Nat × List Nat × List (Nat × Record)
  | [] => ([], [], [])
  | record :: records =>
    let serialized := record.serialize
    let recordOffset := dataFile.length
    let recordLength := serialized.length
    let metadataPos := metaFile.length
    let metadataIndex := (metadataPos - 24) / 16
    let metadataBuf := u64be recordOffset ++ u64be recordLength
    let logKey := LogKey.new segmentNum metadataIndex
    let (sd, sm, pending) := upsertLoop dataFile metaFile segmentNum records
    (serialized ++ sd, metadataBuf ++ sm, (logKey, record) :: pending)

/-- `batch_upsert_records`: run the loop, then append the accumulated buffers
to the two files.  Returns the new file contents and the
`pending_memtable_insertions` list of `(LogKey, Record)` pairs. -/
def batchUpsertRecords (st : SegmentFiles) (segmentNum : Nat) (records : List Record) :
    SegmentFiles × List (Nat × Record) :=
  let (sd, sm, pending) := upsertLoop st.data st.meta segmentNum records
  ({ data := st.data ++ sd, meta := st.meta ++ sm }, pending)

/-- Materialize one record of a segment from its files, as the per-key body
of `read_tagged_log_keys` (engine.rs lines 421-440) does: read the 16-byte
row at `24 + 16 * index`, then read `data_length` bytes at `data_offset` of
the data file and deserialize.  A failed `read_exact` or the
`assert!(data_length > 0)` is `none`. -/
def materializeIndex (st : SegmentFiles) (segmentIndex : Nat) : Option Record :=
  let rowStart := 24 + 16 * segmentIndex
  if st.meta.length < rowStart + 16 then none
  else
    let row := (st.meta.drop rowStart).take 16
    let dataOffset := fromBe (row.take 8)
    let dataLength := fromBe ((row.drop 8).take 8)
    if dataLength = 0 then none
    else if st.data.length < dataOffset + dataLength then none
    else Record.deserialize ((st.data.drop dataOffset).take dataLength)

/-- What step 3 of §4.5 of the spec prescribes for the loop: record the
current end-of-file of data as `offset`, *append the record's bytes*, then
compute the index from the metadata size *before appending row i*.  Unlike
`upsertLoop`, the sizes advance with each record. -/
def specUpsertLoop (dataFile metaFile : List Nat) (segmentNum : Nat) :
    List Record → List Nat × List Nat × List (Nat × Record)
  | [] => ([], [], [])
  | record :: records =>
    let serialized := record.serialize
    let recordOffset := dataFile.length
    let recordLength := serialized.length
    let metadataPos := metaFile.length
    let metadataIndex := (metadataPos - 24) / 16
    let metadataBuf := u64be recordOffset ++ u64be recordLength
    let logKey := LogKey.new segmentNum metadataIndex
    let (sd, sm, pending) :=
      specUpsertLoop (dataFile ++ serialized) (metaFile ++ metadataBuf) segmentNum records
    (serialized ++ sd, metadataBuf ++ sm, (logKey, record) :: pending)

/-! ### Engine: delete path and durability effects (`engine.rs`) -/

/-- `WriteDurability` from `common.rs`. -/
inductive WriteDurability where
  | async
  | flush
  | flushSync
deriving DecidableEq, Repr

/-- Files together with counters of the flush/fsync calls issued on each
file handle (`flush()` and `sync_all()` respectively). -/
structure AppendEffects where
  files : SegmentFiles
  dataFlushes : Nat
  dataSyncs : Nat
  metaFlushes : Nat
  metaSyncs : Nat
deriving DecidableEq, Repr

/-- The per-record loop of `delete_by_field` (engine.rs lines 552-585):
write the serialized record to the data file, flush/fsync it according to
the durability mode, append the 16-byte metadata row, flush/fsync the
metadata file — all *once per record*. -/
def deleteLoop (dur : WriteDurability) (eff : AppendEffects) : List Record → AppendEffects
  | [] => eff
  | record :: records =>
    let serialized := record.serialize
    let offset := eff.files.data.length
    let length := serialized.length
    let data' := eff.files.data ++ serialized
    let dataFlushes' := eff.dataFlushes +
      (if dur = .flush then 1 else if dur = .flushSync then 1 else 0)
    let dataSyncs' := eff.dataSyncs + (if dur = .flushSync then 1 else 0)
    let metadataEntry := u64be offset ++ u64be length
    let meta' := eff.files.meta ++ metadataEntry
    let metaFlushes' := eff.metaFlushes +
      (if dur = .flush then 1 else if dur = .flushSync then 1 else 0)
    let metaSyncs' := eff.metaSyncs + (if dur = .flushSync then 1 else 0)
    deleteLoop dur
      { files := { data := data', meta := meta' },
        dataFlushes := dataFlushes', dataSyncs := dataSyncs',
        metaFlushes := metaFlushes', metaSyncs := metaSyncs' } records

/-- The write/flush portion of `delete_by_field`: tombstone every matching
record, then append them through `deleteLoop`.  Returns the effects and the
tombstoned records (which the method returns to the caller). -/
def deleteByFieldAppend (files : SegmentFiles) (dur : WriteDurability)
    (matching : List Record) : AppendEffects × List Record :=
  let tombstoned := matching.map (fun r => { r with tombstone := true })
  (deleteLoop dur
    { files := files, dataFlushes := 0, dataSyncs := 0, metaFlushes := 0, metaSyncs := 0 }
    tombstoned, tombstoned)

/-- The flush/fsync behaviour of `batch_upsert_records` (engine.rs lines
276-285): a single flush (and for `FlushSync` a single fsync) of each file
after *all* records have been written. -/
def batchUpsertEffects (st : SegmentFiles) (dur : WriteDurability) (segmentNum : Nat)
    (records : List Record) : AppendEffects × List (Nat × Record) :=
  let (files, pending) := batchUpsertRecords st segmentNum records
  let flushes := if dur = .flush then 1 else if dur = .flushSync then 1 else 0
  let syncs := if dur = .flushSync then 1 else 0
  ({ files := files, dataFlushes := flushes, dataSyncs := syncs,
     metaFlushes := flushes, metaSyncs := syncs }, pending)

/-! ### Engine: rotation and compaction (`engine.rs`)

The directory is modelled structurally: each `metadata.<N>` file is its
parsed header (version byte, data-file UUID) plus its decoded 16-byte rows;
each data file is a byte list keyed by its UUID (UUIDs are modelled as
naturals, freshness via a counter).  The `active` symlink is the segment
number it points at. -/

/-- Association-list lookup (used for the directory contents). -/
def alookup {κ α : Type} [DecidableEq κ] (k : κ) : List (κ × α) → Option α
  | [] => none
  | (k', v) :: rest => if k = k' then some v else alookup k rest

/-- Association-list update/insert. -/
def aset {κ α : Type} [DecidableEq κ] (k : κ) (v : α) : List (κ × α) → List (κ × α)
  | [] => [(k, v)]
  | (k', v') :: rest => if k = k' then (k, v) :: rest else (k', v') :: aset k v rest

/-- Association-list removal (`BTreeMap::remove`-like; returns the removed
value, if any, with the remaining list). -/
def aremove {κ α : Type} [DecidableEq κ] (k : κ) : List (κ × α) → Option α × List (κ × α)
  | [] => (none, [])
  | (k', v') :: rest =>
    if k = k' then (some v', rest)
    else
      let (found, rest') := aremove k rest
      (found, (k', v') :: rest')

/-- Lexicographic order on byte lists (Rust `String`/`Vec<u8>` `Ord`). -/
def lexLe : List Nat → List Nat → Bool
  | [], _ => true
  | _ :: _, [] => false
  | a :: as, b :: bs => if a < b then true else if b < a then false else lexLe as bs

/-- The derived `Ord` on `IndexableValue` (`Int` variant before `String`). -/
def IndexableValue.le : IndexableValue → IndexableValue → Bool
  | .int i, .int j => i ≤ j
  | .int _, .str _ => true
  | .str _, .int _ => false
  | .str a, .str b => lexLe a b

/-- `BTreeMap<IndexableValue, _>::insert`: keep the entries sorted by key;
inserting an existing key overwrites its value. -/
def btreeInsert {α : Type} (k : IndexableValue) (v : α) :
    List (IndexableValue × α) → List (IndexableValue × α)
  | [] => [(k, v)]
  | (k', v') :: rest =>
    if k = k' then (k, v) :: rest
    else if IndexableValue.le k k' then (k, v) :: (k', v') :: rest
    else (k', v') :: btreeInsert k v rest

/-- A `metadata.<N>` file in parsed form: the header's version byte and
data-file UUID, and the decoded `(offset, length)` rows. -/
structure SegmentMeta where
  version : Nat
  uuid : Nat
  rows : List (Nat × Nat)
deriving DecidableEq, Repr

/-- The data directory. -/
structure FileSystem where
  segments : List (Nat × SegmentMeta)
  dataFiles : List (Nat × List Nat)
  activeSeg : Nat
  nextUuid : Nat
deriving DecidableEq, Repr

/-- The engine state relevant to maintenance: the directory, the
`segment_size` configuration, the primary-key position in a record, the
`refresh_next_logkey` cursor and the primary memtable
(`IndexableValue → LogKey`). -/
structure Engine where
  fs : FileSystem
  segmentSize : Nat
  primaryKeyIndex : Nat
  refreshNextLogKey : Nat
  primaryMemtable : List (IndexableValue × Nat)
deriving DecidableEq, Repr

/-- `record.at(primary_key_index).as_indexable()`: the primary key of a
record (`.expect` panics are `none`). -/
def recordPk (pkIndex : Nat) (r : Record) : Option IndexableValue :=
  (r.values.get? pkIndex).bind Value.asIndexable

/-- Decode all records of a segment from its rows and data file, as the
`ForwardLogReader` pass at the start of `rotate_and_compact` yields them
(`Record::deserialize` of each row's byte range; reading past EOF or a bad
tag would panic the iterator — `none` here). -/
def readSegmentRecords (rows : List (Nat × Nat)) (data : List Nat) : Option (List Record) :=
  rows.mapM (fun row =>
    if data.length < row.1 + row.2 then none
    else Record.deserialize ((data.drop row.1).take row.2))

/-- Write the compacted data file: append each surviving record once, in
`BTreeMap` (primary-key) order, recording its new `(offset, length)`. -/
def writeCompacted : List (IndexableValue × Record) → Nat →
    List Nat × List (IndexableValue × (Nat × Nat))
  | [], _ => ([], [])
  | (pk, record) :: rest, offset =>
    let serialized := record.serialize
    let (d, m) := writeCompacted rest (offset + serialized.length)
    (serialized ++ d, (pk, (offset, serialized.length)) :: m)

/-- `rotate_and_compact` (engine.rs lines 610-737):

1. read all records of the active segment `N` in forward order, keyed by
   primary key, and build the last-write-wins `pk_to_item_map`;
2. create a fresh data file (`new_data_uuid`) and write each surviving
   record once, building `pk_to_data_map`;
3. write a temp metadata file — header `(1, new_data_uuid)`, then one row
   per *original* forward item, each pointing at its primary key's surviving
   copy — and rename it over `metadata.<N>`;
4. create `metadata.<N+1>` whose header also carries `new_data_uuid`
   (engine.rs lines 711-720 reuse `new_data_uuid`; no second data file is
   created), and re-point `active` at segment `N+1`.

The engine's `refresh_next_logkey` and memtables are not touched. -/
def rotateAndCompact (e : Engine) : Option Engine := do
  let activeNum := e.fs.activeSeg
  let seg ← alookup activeNum e.fs.segments
  let data ← alookup seg.uuid e.fs.dataFiles
  let records ← readSegmentRecords seg.rows data
  let forwardReadItems ← records.mapM
    (fun r => (recordPk e.primaryKeyIndex r).map (fun pk => (pk, r)))
  let pkToItemMap := forwardReadItems.foldl (fun m p => btreeInsert p.1 p.2 m) []
  let newDataUuid := e.fs.nextUuid
  let (compactedData, pkToDataMap) := writeCompacted pkToItemMap 0
  let tempRows ← forwardReadItems.mapM (fun p => alookup p.1 pkToDataMap)
  let segments := aset activeNum
    { version := 1, uuid := newDataUuid, rows := tempRows } e.fs.segments
  let newSegmentNum := activeNum + 1
  let segments := aset newSegmentNum
    { version := 1, uuid := newDataUuid, rows := [] } segments
  let dataFiles := aset newDataUuid compactedData e.fs.dataFiles
  some { e with
    fs := { segments := segments, dataFiles := dataFiles,
            activeSeg := newSegmentNum, nextUuid := e.fs.nextUuid + 1 } }

/-- `do_maintenance_tasks` (engine.rs lines 595-608): rotate and compact
when the active metadata file's size meets or exceeds `segment_size`. -/
def doMaintenanceTasks (e : Engine) : Option Engine := do
  let seg ← alookup e.fs.activeSeg e.fs.segments
  let metadataSize := 24 + 16 * seg.rows.length
  if e.segmentSize ≤ metadataSize then rotateAndCompact e else some e

/-! ### Memtable refresh semantics (for stating C2)

`refresh_indexes` (engine.rs lines 125-181) ingests records in row order:
a tombstoned record removes its primary key, any other record maps its
primary key to the record's `LogKey`. -/

/-- One record's effect on the primary memtable (`insert_record_to_memtables`
/ `remove_record_from_memtables`). -/
def memtableApply (pkIndex : Nat) (m : List (IndexableValue × Nat)) (logKey : Nat)
    (r : Record) : List (IndexableValue × Nat) :=
  match recordPk pkIndex r with
  | none => m
  | some pk => if r.tombstone then (aremove pk m).2 else aset pk logKey m

/-- Replay the rows of segment `segNum` starting at row index `j`, applying
each record to the memtable. -/
def replayRows (pkIndex segNum : Nat) (data : List Nat) :
    Nat → List (Nat × Nat) → List (IndexableValue × Nat) →
      Option (List (IndexableValue × Nat))
  | _, [], m => some m
  | j, row :: rest, m => do
    let record ←
      if data.length < row.1 + row.2 then none
      else Record.deserialize ((data.drop row.1).take row.2)
    replayRows pkIndex segNum data (j + 1) rest
      (memtableApply pkIndex m (LogKey.new segNum j) record)

/-- Drop the memtable entries pointing into segment `n`. -/
def dropSegmentEntries (n : Nat) (m : List (IndexableValue × Nat)) :
    List (IndexableValue × Nat) :=
  m.filter (fun p => LogKey.segmentNum p.2 ≠ n)

/-- "Drop and rebuild the memtable entries for segment `n`": remove the
entries pointing into segment `n`, then replay the (compacted) segment `n`
from row 0 — the second disjunct of claim C2. -/
def dropAndRebuild (e : Engine) (n : Nat) : Option (List (IndexableValue × Nat)) := do
  let seg ← alookup n e.fs.segments
  let data ← alookup seg.uuid e.fs.dataFiles
  replayRows e.primaryKeyIndex n data 0 seg.rows (dropSegmentEntries n e.primaryMemtable)

end LogDb

namespace LogDb

/-! ## Theorems: codec groundwork -/

@[simp] theorem beBytes_length (w n : Nat) : (beBytes w n).length = w := by
  induction w generalizing n with
  | zero => rfl
  | succ w ih => simp [beBytes, ih]

@[simp] theorem u64be_length (n : Nat) : (u64be n).length = 8 := by
  simp [u64be]

theorem fromBe_aux (l : List Nat) (acc : Nat) :
    l.foldl (fun acc b => acc * 256 + b) acc =
      acc * 256 ^ l.length + l.foldl (fun acc b => acc * 256 + b) 0 := by
  induction l generalizing acc with
  | nil => simp
  | cons b l ih =>
    simp only [List.foldl_cons, List.length_cons, Nat.zero_mul, Nat.zero_add]
    rw [ih (acc * 256 + b), ih b]
    ring

theorem fromBe_beBytes (w n : Nat) : fromBe (beBytes w n) = n % 2 ^ (8 * w) := by
  induction w generalizing n with
  | zero => simp [beBytes, fromBe, Nat.mod_one]
  | succ w ih =>
    have key : n % 2 ^ (8 * (w + 1)) = 2 ^ (8 * w) * (n / 2 ^ (8 * w) % 256) + n % 2 ^ (8 * w) := by
      have h256 : (256 : Nat) = 2 ^ 8 := by norm_num
      have : (2 : Nat) ^ (8 * (w + 1)) = 2 ^ (8 * w) * 2 ^ 8 := by
        rw [← pow_add]; ring_nf
      rw [this, Nat.mod_mul, h256]
      ring
    have hpow : (256 : Nat) ^ w = 2 ^ (8 * w) := by
      rw [show (256 : Nat) = 2 ^ 8 by norm_num, ← pow_mul]
    simp only [beBytes, fromBe, List.foldl_cons, Nat.zero_mul, Nat.zero_add] at *
    rw [fromBe_aux, beBytes_length, ih n, key, hpow]
    ring

theorem fromBe_u64be {n : Nat} (h : n < 2 ^ 64) : fromBe (u64be n) = n := by
  have h2 := fromBe_beBytes 8 n
  have hpow : (2 : Nat) ^ (8 * 8) = 2 ^ 64 := by norm_num
  rw [hpow] at h2
  rw [u64be, h2, Nat.mod_eq_of_lt h]

theorem i64ToU64_lt (i : Int) : i64ToU64 i < 2 ^ 64 := by
  have h := Int.emod_lt_of_pos i (b := (2 : Int) ^ 64) (by positivity)
  have h0 := Int.emod_nonneg i (b := (2 : Int) ^ 64) (by positivity)
  simp only [i64ToU64]
  omega

theorem u64ToI64_i64ToU64 {i : Int} (h1 : -(2 : Int) ^ 63 ≤ i) (h2 : i < 2 ^ 63) :
    u64ToI64 (i64ToU64 i) = i := by
  have hmod : i % (2 : Int) ^ 64 = if 0 ≤ i then i else i + 2 ^ 64 := by
    rcases le_or_lt 0 i with hpos | hneg
    · simp only [hpos, if_true]
      exact Int.emod_eq_of_lt hpos (by norm_num at h2 ⊢; omega)
    · simp only [not_le.mpr hneg, if_false]
      have : (i + 2 ^ 64) % (2 : Int) ^ 64 = i % 2 ^ 64 := by
        simp
      rw [← this]
      exact Int.emod_eq_of_lt (by norm_num at h1 ⊢; omega) (by norm_num; omega)
  simp only [u64ToI64, i64ToU64, hmod]
  rcases le_or_lt 0 i with hpos | hneg
  · simp only [hpos, if_true]
    norm_num at h2 ⊢
    omega
  · simp only [not_le.mpr hneg, if_false]
    norm_num at h1 ⊢
    omega

theorem Value.serialize_length_pos (v : Value) : 1 ≤ v.serialize.length := by
  cases v <;> simp [Value.serialize]

theorem take8_u64be_append (n : Nat) (l : List Nat) :
    List.take 8 (u64be n ++ l) = u64be n := by
  rw [List.take_append_of_le_length (by simp)]
  exact List.take_of_length_le (by simp)

theorem drop8_u64be_append (n : Nat) (l : List Nat) :
    List.drop 8 (u64be n ++ l) = l := by
  rw [List.drop_append_of_le_length (by simp)]
  rw [List.drop_of_length_le (by simp), List.nil_append]

theorem Value.deserialize_append (v : Value) (rest : List Nat) (hwf : v.wf) :
    Value.deserialize (v.serialize ++ rest) = some (v, v.serialize.length) := by
  cases v with
  | null => simp [Value.serialize, Value.deserialize]
  | int i =>
    have hlt := i64ToU64_lt i
    simp [Value.serialize, Value.deserialize, take8_u64be_append,
      fromBe_u64be hlt, u64ToI64_i64ToU64 hwf.1 hwf.2]
  | float bits =>
    simp only [Value.wf] at hwf
    simp [Value.serialize, Value.deserialize, take8_u64be_append, fromBe_u64be hwf]
  | str s =>
    simp only [Value.wf] at hwf
    simp [Value.serialize, Value.deserialize, List.append_assoc,
      take8_u64be_append, drop8_u64be_append, fromBe_u64be hwf, List.take_left]
    omega
  | bytes b =>
    simp only [Value.wf] at hwf
    simp [Value.serialize, Value.deserialize, List.append_assoc,
      take8_u64be_append, drop8_u64be_append, fromBe_u64be hwf, List.take_left]
    omega

theorem deserializeValues_serialize (vs : List Value) (hwf : ∀ v ∈ vs, v.wf) :
    ∀ fuel, (vs.map Value.serialize).flatten.length ≤ fuel →
      deserializeValues fuel (vs.map Value.serialize).flatten = some vs := by
  induction vs with
  | nil => intro fuel _; cases fuel <;> simp [deserializeValues]
  | cons v vs ih =>
    intro fuel hfuel
    have hv : v.wf := hwf v (by simp)
    have hvs : ∀ u ∈ vs, u.wf := fun u hu => hwf u (by simp [hu])
    have hlen : 1 ≤ v.serialize.length := Value.serialize_length_pos v
    simp only [List.map_cons, List.flatten_cons, List.length_append] at hfuel ⊢
    obtain ⟨fuel, rfl⟩ : ∃ f, fuel = f + 1 := by
      refine ⟨fuel - 1, ?_⟩; omega
    obtain ⟨a, l, hl⟩ : ∃ a l, v.serialize ++ (vs.map Value.serialize).flatten = a :: l := by
      cases h : v.serialize ++ (vs.map Value.serialize).flatten with
      | nil =>
        have := congrArg List.length h
        simp only [List.length_append, List.length_nil] at this
        omega
      | cons a l => exact ⟨a, l, rfl⟩
    rw [hl, deserializeValues, ← hl]
    rw [Value.deserialize_append v _ hv]
    simp only [Option.bind_eq_bind, Option.some_bind]
    rw [max_eq_left hlen, List.drop_append_of_le_length (le_refl _),
      List.drop_of_length_le (le_refl _), List.nil_append]
    rw [ih hvs fuel (by omega)]
    rfl
    simp

/-- Record round-trip: serialize then deserialize gives back the record. -/
theorem Record.deserialize_serialize (r : Record) (hwf : r.wf) :
    Record.deserialize (Record.serialize r) = some r := by
  obtain ⟨t, vs⟩ := r
  simp only [Record.serialize, Record.deserialize]
  rw [deserializeValues_serialize vs hwf _ (le_refl _)]
  cases t <;> rfl

/-! ## Theorems: LogKey packing (C9) -/

theorem LogKey.new_eq {segmentNum index : Nat} (h : index < 2 ^ 48) :
    LogKey.new segmentNum index = segmentNum * 2 ^ 48 + index := by
  rw [LogKey.new, Nat.shiftLeft_eq]
  rw [Nat.mul_comm segmentNum (2 ^ 48)]
  exact (Nat.mul_add_lt_is_or h segmentNum).symm

theorem LogKey.segmentNum_new {s i : Nat} (hs : s < 2 ^ 16) (hi : i < 2 ^ 48) :
    LogKey.segmentNum (LogKey.new s i) = s := by
  rw [LogKey.new_eq hi, LogKey.segmentNum, Nat.shiftRight_eq_div_pow]
  omega

theorem LogKey.index_new {s i : Nat} (hi : i < 2 ^ 48) :
    LogKey.index (LogKey.new s i) = i := by
  rw [LogKey.new_eq hi, LogKey.index, Nat.and_pow_two_sub_one_eq_mod]
  omega

/-- C9: `LogKey::new(s, i)` packs `s` into the high 16 bits and `i` into the
low 48 bits: `segment_num()` and `index()` recover the inputs, and the
numeric order of packed keys is the lexicographic order of the
`(segment, index)` pairs. -/
theorem claim_C9_logkey_pack_unpack_order (s i : Nat) (hs : s < 2 ^ 16) (hi : i < 2 ^ 48) :
    LogKey.segmentNum (LogKey.new s i) = s ∧
    LogKey.index (LogKey.new s i) = i ∧
    ∀ s' i', s' < 2 ^ 16 → i' < 2 ^ 48 →
      (LogKey.new s i < LogKey.new s' i' ↔ s < s' ∨ (s = s' ∧ i < i')) := by
  refine ⟨LogKey.segmentNum_new hs hi, LogKey.index_new hi, ?_⟩
  intro s' i' _ hi'
  rw [LogKey.new_eq hi, LogKey.new_eq hi']
  omega

/-- Witness for C9 at `s = 3`, `i = 5`, `s' = 3`, `i' = 7`. -/
theorem claim_C9_witness :
    LogKey.segmentNum (LogKey.new 3 5) = 3 ∧
    LogKey.index (LogKey.new 3 5) = 5 ∧
    (LogKey.new 3 5 < LogKey.new 3 7 ↔ 3 < 3 ∨ (3 = 3 ∧ 5 < 7)) := by
  obtain ⟨h1, h2, h3⟩ := claim_C9_logkey_pack_unpack_order 3 5 (by norm_num) (by norm_num)
  exact ⟨h1, h2, h3 3 7 (by norm_num) (by norm_num)⟩

/-! ## Theorems: LogKeySet removal (C8) -/

/-- C8: `LogKeySet::remove` — on a one-element set it fails with
`InvalidInput` leaving the set alone; on a set of two or more it removes a
member and reports `NotFound` (leaving the set unchanged) for a non-member;
the set is non-empty after every outcome. -/
theorem claim_C8_logkeyset_remove (s : Finset Nat) (k : Nat) (hne : s.Nonempty) :
    (s.card = 1 → logKeySetRemove s k = (.error .invalidInput, s)) ∧
    (2 ≤ s.card →
      (k ∈ s → logKeySetRemove s k = (.ok (), s.erase k)) ∧
      (k ∉ s → logKeySetRemove s k = (.error .notFound, s))) ∧
    (logKeySetRemove s k).2.Nonempty := by
  have hcard : 1 ≤ s.card := Finset.card_pos.mpr hne
  refine ⟨?_, ?_, ?_⟩
  · intro h1
    simp [logKeySetRemove, h1]
  · intro h2
    have hc1 : s.card ≠ 1 := by omega
    constructor
    · intro hk
      simp [logKeySetRemove, hk, hc1]
    · intro hk
      simp [logKeySetRemove, hk, hc1, Finset.erase_eq_of_not_mem hk]
  · by_cases h1 : s.card = 1
    · simp [logKeySetRemove, h1, hne]
    · by_cases hk : k ∈ s
      · have : 1 ≤ (s.erase k).card := by
          rw [Finset.card_erase_of_mem hk]
          omega
        simp only [logKeySetRemove, h1, if_false, hk, if_true]
        exact Finset.card_pos.mp (by omega)
      · simp only [logKeySetRemove, h1, if_false, hk, if_false]
        rw [Finset.erase_eq_of_not_mem hk]
        exact hne

/-- Witness for C8 at `s = {1, 2}`, `k = 1`. -/
theorem claim_C8_witness :
    (({1, 2} : Finset Nat).card = 1 →
      logKeySetRemove {1, 2} 1 = (.error .invalidInput, {1, 2})) ∧
    (2 ≤ ({1, 2} : Finset Nat).card →
      (1 ∈ ({1, 2} : Finset Nat) →
        logKeySetRemove {1, 2} 1 = (.ok (), ({1, 2} : Finset Nat).erase 1)) ∧
      (1 ∉ ({1, 2} : Finset Nat) →
        logKeySetRemove {1, 2} 1 = (.error .notFound, {1, 2}))) ∧
    (logKeySetRemove {1, 2} 1).2.Nonempty :=
  claim_C8_logkeyset_remove {1, 2} 1 ⟨1, by decide⟩

/-! ## Theorems: record wire format (C6) and round-trip (C7) -/

/-- C6: `serialize(record)` is one tombstone byte (0 or 1, reflecting the
flag) followed by the concatenation, in field order, of the values'
serializations. -/
theorem claim_C6_record_wire_format (r : Record) :
    ∃ b, (b = 0 ∨ b = 1) ∧ (b = 1 ↔ r.tombstone) ∧
      Record.serialize r = b :: (r.values.map Value.serialize).flatten := by
  cases h : r.tombstone with
  | false => exact ⟨0, Or.inl rfl, by simp, by simp [Record.serialize, h]⟩
  | true => exact ⟨1, Or.inr rfl, by simp [h], by simp [Record.serialize, h]⟩

/-- C7: for a record well-typed against the schema (the `wf` hypothesis is
the machine-level invariant every Rust record satisfies: `i64` range,
`usize` payload lengths), deserialization inverts serialization, and each
value's serialization is read back to an equal value consuming exactly the
bytes written. -/
theorem claim_C7_roundtrip (schema : List FieldType) (r : Record)
    (_hty : r.wellTyped schema) (hwf : r.wf) :
    Record.deserialize (Record.serialize r) = some r ∧
    ∀ v ∈ r.values, ∀ rest,
      Value.deserialize (v.serialize ++ rest) = some (v, v.serialize.length) :=
  ⟨Record.deserialize_serialize r hwf,
   fun v hv rest => Value.deserialize_append v rest (hwf v hv)⟩

/-- Witness for C7 on the schema `{Int, String?}` and the record
`(5, "hi")`. -/
theorem claim_C7_witness :
    Record.deserialize (Record.serialize ⟨false, [.int 5, .str [104, 105]]⟩) =
      some ⟨false, [.int 5, .str [104, 105]]⟩ ∧
    ∀ v ∈ (⟨false, [.int 5, .str [104, 105]]⟩ : Record).values, ∀ rest,
      Value.deserialize (v.serialize ++ rest) = some (v, v.serialize.length) :=
  claim_C7_roundtrip [⟨.int, false⟩, ⟨.string, true⟩] ⟨false, [.int 5, .str [104, 105]]⟩
    (by decide) (by decide)

/-! ## Theorems: forward reader seek distances (C10) -/

theorem pendingRows_stop {meta : List Nat} {pos : Nat} (h : meta.length < pos + 16) :
    pendingRows meta pos = [] := by
  rw [pendingRows, if_pos h]

theorem pendingRows_cons {meta : List Nat} {pos : Nat} (h : ¬ meta.length < pos + 16) :
    pendingRows meta pos =
      (fromBe (((meta.drop pos).take 16).take 8),
       fromBe ((((meta.drop pos).take 16).drop 8).take 8)) :: pendingRows meta (pos + 16) := by
  rw [pendingRows, if_neg h]

/-- C10 (counterexample to the claim as stated): on the rows
`[(0, 1), (0, 1)]` — whose data offsets `0, 0` are non-decreasing and whose
run starts at data position 0 — the reader's second `u64` subtraction
`data_offset - stream_position` is `0 - 1`: it underflows.  Non-decreasing
offsets alone do not rule out underflow; overlapping rows (as compaction can
produce for repeated primary keys) break it. -/
theorem claim_C10_counterexample :
    offsetsMonotone [(0, 1), (0, 1)] ∧
    runSeekDistances 2 (ForwardLogReader.newWithIndex
      (mkMeta (List.replicate 24 0) [(0, 1), (0, 1)] []) [0] 0) = [0, -1] ∧
    ¬ (∀ d ∈ runSeekDistances 2 (ForwardLogReader.newWithIndex
        (mkMeta (List.replicate 24 0) [(0, 1), (0, 1)] []) [0] 0), 0 ≤ d) := by
  refine ⟨by decide, by decide, ?_⟩
  intro hall
  have h := hall (-1) (by decide)
  omega

/-- C10 (amended): under the append-path discipline — every visited row's
offset lies at or past the end of the previously consumed data region — the
`u64` subtraction `data_offset - stream_position` never underflows: every
seek distance is non-negative.  (And indeed `readRecord` has no error branch
comparing the offset with the current position: its only error cases are a
short data read and a bad tag.) -/
theorem claim_C10_amended_no_underflow (fuel : Nat) (st : ForwardLogReader)
    (h : rowsChainFrom st.dataPos (pendingRows st.meta st.metaPos)) :
    ∀ d ∈ runSeekDistances fuel st, 0 ≤ d := by
  induction fuel generalizing st with
  | zero => intro d hd; simp [runSeekDistances] at hd
  | succ fuel ih =>
    intro d hd
    by_cases hm : st.meta.length < st.metaPos + 16
    · simp [runSeekDistances, hm] at hd
    · rw [pendingRows_cons hm] at h
      obtain ⟨h1, h2⟩ := h
      simp only [runSeekDistances, if_neg hm] at hd
      rw [List.mem_cons] at hd
      rcases hd with rfl | hd
      · simp only [seekDistance]
        omega
      · by_cases hds : st.data.length <
          fromBe (((st.meta.drop st.metaPos).take 16).take 8) +
            fromBe ((((st.meta.drop st.metaPos).take 16).drop 8).take 8)
        · simp [hds] at hd
        · simp only [if_neg hds] at hd
          cases hrec : Record.deserialize
            ((st.data.drop (fromBe (((st.meta.drop st.metaPos).take 16).take 8))).take
              (fromBe ((((st.meta.drop st.metaPos).take 16).drop 8).take 8))) with
          | none => rw [hrec] at hd; simp at hd
          | some r =>
            rw [hrec] at hd
            exact ih _ h2 d hd

/-! ## Theorems: forward reader yields the rows in order (C5) -/

@[simp] theorem encodeRow_length (row : Nat × Nat) : (encodeRow row).length = 16 := by
  simp [encodeRow]

theorem flatten_encodeRow_length (rows : List (Nat × Nat)) :
    ((rows.map encodeRow).flatten).length = 16 * rows.length := by
  induction rows with
  | nil => simp
  | cons row rest ih =>
    simp only [List.map_cons, List.flatten_cons, List.length_append, encodeRow_length, ih,
      List.length_cons]
    ring

theorem mkMeta_length (hdr : List Nat) (rows : List (Nat × Nat)) (extra : List Nat)
    (hhdr : hdr.length = 24) :
    (mkMeta hdr rows extra).length = 24 + 16 * rows.length + extra.length := by
  rw [mkMeta, List.length_append, List.length_append, flatten_encodeRow_length, hhdr]

theorem flatten_encodeRow_drop (rows : List (Nat × Nat)) :
    ∀ j, ((rows.map encodeRow).flatten).drop (16 * j) = ((rows.drop j).map encodeRow).flatten := by
  induction rows with
  | nil => intro j; simp
  | cons row rest ih =>
    intro j
    cases j with
    | zero => simp
    | succ j =>
      simp only [List.map_cons, List.flatten_cons, List.drop_succ_cons]
      rw [show 16 * (j + 1) = (encodeRow row).length + 16 * j by simp [encodeRow]; ring]
      rw [List.drop_append, ih j]

theorem meta_row_at (hdr : List Nat) (rows : List (Nat × Nat)) (extra : List Nat)
    (hhdr : hdr.length = 24) (i : Nat) (hi : i < rows.length) :
    (((mkMeta hdr rows extra).drop (24 + 16 * i)).take 16) = encodeRow rows[i] := by
  have h1 : mkMeta hdr rows extra = hdr ++ ((rows.map encodeRow).flatten ++ extra) := by
    simp [mkMeta]
  rw [h1, show 24 + 16 * i = hdr.length + 16 * i by rw [hhdr], List.drop_append]
  rw [List.drop_append_of_le_length (by rw [flatten_encodeRow_length]; omega)]
  rw [flatten_encodeRow_drop rows i, List.drop_eq_getElem_cons hi]
  simp only [List.map_cons, List.flatten_cons, List.append_assoc]
  rw [List.take_append_of_le_length (by simp), List.take_of_length_le (by simp)]

theorem encodeRow_take8 (row : Nat × Nat) : (encodeRow row).take 8 = u64be row.1 := by
  simp only [encodeRow]
  rw [List.take_append_of_le_length (by simp)]
  exact List.take_of_length_le (by simp)

theorem encodeRow_drop8_take8 (row : Nat × Nat) :
    ((encodeRow row).drop 8).take 8 = u64be row.2 := by
  simp only [encodeRow]
  rw [List.drop_append_of_le_length (by simp), List.drop_of_length_le (by simp),
    List.nil_append]
  exact List.take_of_length_le (by simp)

/-- One successful `read_record` step over a structured segment. -/
theorem readRecord_row (hdr data : List Nat) (pairs : List ((Nat × Nat) × Record))
    (extra : List Nat) (hhdr : hdr.length = 24) (i : Nat) (hi : i < pairs.length)
    (dataPos : Nat) (hok : rowOk data pairs[i]) :
    readRecord ⟨mkMeta hdr (pairs.map (·.1)) extra, data, 24 + 16 * i, dataPos⟩ =
      .ok (some ({ metadataIndex := i, dataOffset := pairs[i].1.1,
                   dataLength := pairs[i].1.2, record := pairs[i].2 },
        ⟨mkMeta hdr (pairs.map (·.1)) extra, data, 24 + 16 * (i + 1),
         pairs[i].1.1 + pairs[i].1.2⟩)) := by
  obtain ⟨ho64, hl64, hdata, hrec⟩ := hok
  have hlenrows : (pairs.map (·.1)).length = pairs.length := by simp
  have hrow := meta_row_at hdr (pairs.map (·.1)) extra hhdr i (by omega)
  simp only [List.getElem_map] at hrow
  have hmetalen := mkMeta_length hdr (pairs.map (·.1)) extra hhdr
  rw [hlenrows] at hmetalen
  rw [readRecord]
  simp only [hrow, hmetalen, encodeRow_take8, encodeRow_drop8_take8,
    fromBe_u64be ho64, fromBe_u64be hl64]
  rw [if_neg (by omega), if_neg (by omega), hrec]
  have hidx : (24 + 16 * i - 24) / 16 = i := by omega
  have harith : 24 + 16 * i + 16 = 24 + 16 * (i + 1) := by ring
  rw [hidx, harith]

/-- `read_record` signals end-of-stream whenever fewer than 16 bytes remain
past the current position — including at a trailing partial row. -/
theorem readRecord_eos (st : ForwardLogReader) (h : st.meta.length < st.metaPos + 16) :
    readRecord st = .ok none := by
  rw [readRecord, if_pos h]

/-- A data read shorter than the row's length is an error, not
end-of-stream. -/
theorem readRecord_data_short (st : ForwardLogReader)
    (h : ¬ st.meta.length < st.metaPos + 16)
    (h2 : st.data.length < fromBe (((st.meta.drop st.metaPos).take 16).take 8) +
      fromBe ((((st.meta.drop st.metaPos).take 16).drop 8).take 8)) :
    readRecord st = .error .dataEof := by
  rw [readRecord, if_neg h, if_pos h2]

theorem runReader_succ_some (fuel : Nat) (st st' : ForwardLogReader)
    (item : ForwardLogReaderItem) (h : readRecord st = .ok (some (item, st'))) :
    runReader (fuel + 1) st =
      match runReader fuel st' with
      | .error e => .error e
      | .ok items => .ok (item :: items) := by
  rw [runReader, h]

/-- The reader, started at index `i` of a structured segment, yields exactly
the records of rows `i, i+1, …` in order. -/
theorem runReader_structured (hdr data : List Nat) (pairs : List ((Nat × Nat) × Record))
    (extra : List Nat) (hhdr : hdr.length = 24) (hextra : extra.length < 16)
    (hok : ∀ p ∈ pairs, rowOk data p) :
    ∀ fuel i dataPos, pairs.length - i + 1 ≤ fuel →
      runReader fuel ⟨mkMeta hdr (pairs.map (·.1)) extra, data, 24 + 16 * i, dataPos⟩ =
        .ok (expectedItems i (pairs.drop i)) := by
  intro fuel
  induction fuel with
  | zero => intro i dataPos hfuel; omega
  | succ fuel ih =>
    intro i dataPos hfuel
    by_cases hi : i < pairs.length
    · rw [runReader_succ_some fuel _ _ _ (readRecord_row hdr data pairs extra hhdr i hi dataPos
        (hok _ (List.getElem_mem hi)))]
      rw [ih (i + 1) (pairs[i].1.1 + pairs[i].1.2) (by omega)]
      rw [List.drop_eq_getElem_cons hi]
      rfl
    · have hdrop : pairs.drop i = [] := List.drop_of_length_le (by omega)
      have heos : readRecord
          (⟨mkMeta hdr (pairs.map (·.1)) extra, data, 24 + 16 * i, dataPos⟩ :
            ForwardLogReader) = .ok none := by
        apply readRecord_eos
        show (mkMeta hdr (pairs.map (·.1)) extra).length < 24 + 16 * i + 16
        rw [mkMeta_length hdr _ extra hhdr, List.length_map]
        omega
      rw [runReader, heos, hdrop]
      rfl

/-- C5 (counterexample to the claim as stated): a metadata file whose size
past the header is 8 — not a multiple of 16, so EOF does *not* fall on a row
boundary — makes the reader signal end-of-stream (`Ok(None)`), not a
consistency error: `read_exact` reports `UnexpectedEof` for the partial row
and `read_record` maps that to end-of-stream. -/
theorem claim_C5_counterexample :
    ((mkMeta (List.replicate 24 0) [] [0, 0, 0, 0, 0, 0, 0, 0]).length - 24) % 16 ≠ 0 ∧
    readRecord (ForwardLogReader.newWithIndex
      (mkMeta (List.replicate 24 0) [] [0, 0, 0, 0, 0, 0, 0, 0]) [] 0) = .ok none := by
  decide

/-- C5 (amended): for every segment whose metadata is a 24-byte header
followed by well-formed 16-byte rows (plus possibly a trailing partial row),
the reader started at index `i` yields exactly the records of rows
`i, i+1, …` in order; it signals end-of-stream when fewer than 16 bytes
remain past the current position — a trailing partial row is treated as
end-of-stream, exactly like EOF on a row boundary; and a data read returning
fewer than the row's length bytes is an error (a propagated I/O error, on
which the iterator panics), not end-of-stream. -/
theorem claim_C5_amended_reader (hdr data extra : List Nat)
    (pairs : List ((Nat × Nat) × Record)) (i fuel : Nat)
    (hhdr : hdr.length = 24) (hextra : extra.length < 16)
    (hok : ∀ p ∈ pairs, rowOk data p) (hfuel : pairs.length - i + 1 ≤ fuel) :
    runReader fuel
        (ForwardLogReader.newWithIndex (mkMeta hdr (pairs.map (·.1)) extra) data i) =
      .ok (expectedItems i (pairs.drop i)) ∧
    (∀ st : ForwardLogReader, st.meta.length < st.metaPos + 16 →
      readRecord st = .ok none) ∧
    (∀ st : ForwardLogReader, ¬ st.meta.length < st.metaPos + 16 →
      st.data.length < fromBe (((st.meta.drop st.metaPos).take 16).take 8) +
        fromBe ((((st.meta.drop st.metaPos).take 16).drop 8).take 8) →
      readRecord st = .error .dataEof) :=
  ⟨runReader_structured hdr data pairs extra hhdr hextra hok fuel i 0 hfuel,
   readRecord_eos, readRecord_data_short⟩

/-- Witness for the amended C5: one well-formed row, a trailing partial row
`[9, 9]`, read from index 0. -/
theorem claim_C5_witness :
    runReader 2 (ForwardLogReader.newWithIndex
        (mkMeta (List.replicate 24 0)
          ([((0, 1), ({ tombstone := false, values := [] } : Record))].map (·.1)) [9, 9])
        [0] 0) =
      .ok (expectedItems 0
        ([((0, 1), ({ tombstone := false, values := [] } : Record))].drop 0)) ∧
    (∀ st : ForwardLogReader, st.meta.length < st.metaPos + 16 →
      readRecord st = .ok none) ∧
    (∀ st : ForwardLogReader, ¬ st.meta.length < st.metaPos + 16 →
      st.data.length < fromBe (((st.meta.drop st.metaPos).take 16).take 8) +
        fromBe ((((st.meta.drop st.metaPos).take 16).drop 8).take 8) →
      readRecord st = .error .dataEof) :=
  claim_C5_amended_reader (List.replicate 24 0) [0] [9, 9]
    [((0, 1), { tombstone := false, values := [] })] 0 2
    (by decide) (by decide) (by decide) (by decide)

/-- Witness for the amended C10 on two non-overlapping rows: the first seek
distance of that run is 0, and the theorem bounds it below by 0. -/
theorem claim_C10_witness :
    (0 : Int) ∈ runSeekDistances 3 (ForwardLogReader.newWithIndex
      (mkMeta (List.replicate 24 0) [(0, 1), (1, 1)] []) [0, 0] 0) ∧ (0 : Int) ≤ 0 :=
  ⟨by decide,
   claim_C10_amended_no_underflow 3
    (ForwardLogReader.newWithIndex (mkMeta (List.replicate 24 0) [(0, 1), (1, 1)] []) [0, 0] 0)
    (by
      rw [pendingRows_cons (by decide), pendingRows_cons (by decide),
        pendingRows_stop (by decide)]
      decide)
    0 (by decide)⟩

/-! ## Theorems: batch upsert offsets and indexes (C1)

`batch_upsert_records` computes `record_offset` and `metadata_index` from
`seek(SeekFrom::End(0))` *inside* the loop, but only appends the accumulated
buffers to the files *after* the loop — so for a batch of two or more
records every record sees the pre-batch sizes.  The two records below are
the two records committed by the transaction test
(`test_commit_transaction`, which per §1 applies its deferred batch through
batch-upsert and expects both records to be retrievable). -/

/-- C1 (the code diverges from the claim): upserting the batch
`[r1, r2] = [(0, "John", [3,4,5]), (1, "John", [1,2,3])]` into a fresh
segment 1, the code emits the *same* LogKey `(1, 0)` for both records
(instead of `(1, 0)` and `(1, 1)`), and materializing the key emitted for
`r2` through the written files yields `r1`, not `r2`.  The spec's per-record
procedure (step 3 of §4.5, `specUpsertLoop`) emits distinct keys. -/
theorem claim_C1_code_bug_batch_upsert :
    (batchUpsertRecords ⟨[], 1 :: List.replicate 23 0⟩ 1
        [⟨false, [.int 0, .str [74, 111, 104, 110], .bytes [3, 4, 5]]⟩,
         ⟨false, [.int 1, .str [74, 111, 104, 110], .bytes [1, 2, 3]]⟩]).2 =
      [(LogKey.new 1 0, ⟨false, [.int 0, .str [74, 111, 104, 110], .bytes [3, 4, 5]]⟩),
       (LogKey.new 1 0, ⟨false, [.int 1, .str [74, 111, 104, 110], .bytes [1, 2, 3]]⟩)] ∧
    materializeIndex
        (batchUpsertRecords ⟨[], 1 :: List.replicate 23 0⟩ 1
          [⟨false, [.int 0, .str [74, 111, 104, 110], .bytes [3, 4, 5]]⟩,
           ⟨false, [.int 1, .str [74, 111, 104, 110], .bytes [1, 2, 3]]⟩]).1
        (LogKey.index (LogKey.new 1 0)) =
      some ⟨false, [.int 0, .str [74, 111, 104, 110], .bytes [3, 4, 5]]⟩ ∧
    (⟨false, [.int 0, .str [74, 111, 104, 110], .bytes [3, 4, 5]]⟩ : Record) ≠
      ⟨false, [.int 1, .str [74, 111, 104, 110], .bytes [1, 2, 3]]⟩ ∧
    (specUpsertLoop [] (1 :: List.replicate 23 0) 1
        [⟨false, [.int 0, .str [74, 111, 104, 110], .bytes [3, 4, 5]]⟩,
         ⟨false, [.int 1, .str [74, 111, 104, 110], .bytes [1, 2, 3]]⟩]).2.2 =
      [(LogKey.new 1 0, ⟨false, [.int 0, .str [74, 111, 104, 110], .bytes [3, 4, 5]]⟩),
       (LogKey.new 1 1, ⟨false, [.int 1, .str [74, 111, 104, 110], .bytes [1, 2, 3]]⟩)] := by
  refine ⟨by decide, by decide, by decide, by decide⟩

/-! ## Theorems: delete path durability (C4) -/

theorem deleteLoop_flushSync (recs : List Record) :
    ∀ eff : AppendEffects,
      (deleteLoop .flushSync eff recs).files.data =
        eff.files.data ++ (recs.map Record.serialize).flatten ∧
      (deleteLoop .flushSync eff recs).dataSyncs = eff.dataSyncs + recs.length ∧
      (deleteLoop .flushSync eff recs).metaSyncs = eff.metaSyncs + recs.length := by
  induction recs with
  | nil => intro eff; simp [deleteLoop]
  | cons r recs ih =>
    intro eff
    rw [deleteLoop]
    have hif1 : (if WriteDurability.flushSync = WriteDurability.flush then (1 : Nat)
        else if WriteDurability.flushSync = WriteDurability.flushSync then 1 else 0) = 1 := rfl
    have hif2 : (if WriteDurability.flushSync = WriteDurability.flushSync then (1 : Nat)
        else 0) = 1 := rfl
    rw [hif1, hif2]
    obtain ⟨h1, h2, h3⟩ := ih
      { files := { data := eff.files.data ++ r.serialize,
                   meta := eff.files.meta ++ (u64be eff.files.data.length ++
                     u64be r.serialize.length) },
        dataFlushes := eff.dataFlushes + 1, dataSyncs := eff.dataSyncs + 1,
        metaFlushes := eff.metaFlushes + 1, metaSyncs := eff.metaSyncs + 1 }
    refine ⟨?_, ?_, ?_⟩
    · rw [h1]
      simp [List.append_assoc]
    · rw [h2]
      simp only [List.length_cons]
      ring
    · rw [h3]
      simp only [List.length_cons]
      ring

/-- C4 (counterexample to the claim as stated): deleting two matching
records with `FlushSync` issues *two* fsyncs of the data file (and two of
the metadata file) — one per record — while a batch upsert of the same two
records shares a single fsync per file. -/
theorem claim_C4_counterexample :
    (deleteByFieldAppend ⟨[], 1 :: List.replicate 23 0⟩ .flushSync
        [⟨false, [.int 0]⟩, ⟨false, [.int 1]⟩]).1.dataSyncs = 2 ∧
    (deleteByFieldAppend ⟨[], 1 :: List.replicate 23 0⟩ .flushSync
        [⟨false, [.int 0]⟩, ⟨false, [.int 1]⟩]).1.metaSyncs = 2 ∧
    (batchUpsertEffects ⟨[], 1 :: List.replicate 23 0⟩ .flushSync 1
        [⟨true, [.int 0]⟩, ⟨true, [.int 1]⟩]).1.dataSyncs = 1 ∧
    (2 : Nat) ≠ 1 := by
  refine ⟨by decide, by decide, by decide, by decide⟩

/-- C4 (amended): `delete_by` appends the tombstoned copies of all matching
records to the active segment, but through its own per-record loop, not the
batch-upsert path: under `FlushSync` it issues one fsync of the data file
and one of the metadata file *per deleted record* (`k` fsyncs each for `k`
records), whereas `batch_upsert_records` issues a single fsync of each file
for the whole batch. -/
theorem claim_C4_amended_delete_fsync_per_record (files : SegmentFiles)
    (matching : List Record) (segmentNum : Nat) :
    (deleteByFieldAppend files .flushSync matching).1.files.data =
      files.data ++
        ((matching.map (fun r => { r with tombstone := true })).map Record.serialize).flatten ∧
    (deleteByFieldAppend files .flushSync matching).1.dataSyncs = matching.length ∧
    (deleteByFieldAppend files .flushSync matching).1.metaSyncs = matching.length ∧
    (batchUpsertEffects files .flushSync segmentNum matching).1.dataSyncs = 1 ∧
    (batchUpsertEffects files .flushSync segmentNum matching).1.metaSyncs = 1 := by
  obtain ⟨h1, h2, h3⟩ :=
    deleteLoop_flushSync (matching.map (fun r => { r with tombstone := true }))
      { files := files, dataFlushes := 0, dataSyncs := 0, metaFlushes := 0, metaSyncs := 0 }
  refine ⟨?_, ?_, ?_, by simp [batchUpsertEffects], by simp [batchUpsertEffects]⟩
  · exact h1
  · rw [deleteByFieldAppend]
    simp only at h2 ⊢
    rw [h2]
    simp
  · rw [deleteByFieldAppend]
    simp only at h3 ⊢
    rw [h3]
    simp

/-! ## Theorems: rotation and compaction (C2, C3) -/

theorem alookup_nil {κ α : Type} [DecidableEq κ] (k : κ) : alookup k ([] : List (κ × α)) = none :=
  rfl

theorem alookup_cons {κ α : Type} [DecidableEq κ] (k k' : κ) (v : α) (rest : List (κ × α)) :
    alookup k ((k', v) :: rest) = if k = k' then some v else alookup k rest :=
  rfl

theorem aset_nil {κ α : Type} [DecidableEq κ] (k : κ) (v : α) :
    aset k v ([] : List (κ × α)) = [(k, v)] :=
  rfl

theorem aset_cons {κ α : Type} [DecidableEq κ] (k k' : κ) (v v' : α) (rest : List (κ × α)) :
    aset k v ((k', v') :: rest) =
      if k = k' then (k, v) :: rest else (k', v') :: aset k v rest :=
  rfl

theorem alookup_aset_self {κ α : Type} [DecidableEq κ] (k : κ) (v : α) (l : List (κ × α)) :
    alookup k (aset k v l) = some v := by
  induction l with
  | nil => rw [aset_nil, alookup_cons, if_pos rfl]
  | cons p rest ih =>
    obtain ⟨k', v'⟩ := p
    rw [aset_cons]
    by_cases h : k = k'
    · rw [if_pos h, alookup_cons, if_pos rfl]
    · rw [if_neg h, alookup_cons, if_neg h, ih]

theorem alookup_aset_ne {κ α : Type} [DecidableEq κ] {k k' : κ} (h : k ≠ k') (v : α)
    (l : List (κ × α)) : alookup k (aset k' v l) = alookup k l := by
  induction l with
  | nil => rw [aset_nil, alookup_cons, if_neg h, alookup_nil]
  | cons p rest ih =>
    obtain ⟨k'', v''⟩ := p
    rw [aset_cons]
    by_cases h2 : k' = k''
    · subst h2
      rw [if_pos rfl, alookup_cons, alookup_cons, if_neg h, if_neg h]
    · rw [if_neg h2, alookup_cons, alookup_cons]
      by_cases h3 : k = k''
      · rw [if_pos h3, if_pos h3]
      · rw [if_neg h3, if_neg h3, ih]

/-- Destructuring `rotateAndCompact e = some e'`: the lookups that must have
succeeded, and the explicit form of the resulting engine. -/
theorem rotateAndCompact_eq_some {e e' : Engine} (h : rotateAndCompact e = some e') :
    ∃ seg data records items tempRows,
      alookup e.fs.activeSeg e.fs.segments = some seg ∧
      alookup seg.uuid e.fs.dataFiles = some data ∧
      readSegmentRecords seg.rows data = some records ∧
      records.mapM (fun r => (recordPk e.primaryKeyIndex r).map (fun pk => (pk, r))) =
        some items ∧
      items.mapM (fun p => alookup p.1
        (writeCompacted (items.foldl (fun m p => btreeInsert p.1 p.2 m) []) 0).2) =
        some tempRows ∧
      e' = { e with fs :=
        { segments := aset (e.fs.activeSeg + 1)
            { version := 1, uuid := e.fs.nextUuid, rows := [] }
            (aset e.fs.activeSeg
              { version := 1, uuid := e.fs.nextUuid, rows := tempRows } e.fs.segments),
          dataFiles := aset e.fs.nextUuid
            (writeCompacted (items.foldl (fun m p => btreeInsert p.1 p.2 m) []) 0).1
            e.fs.dataFiles,
          activeSeg := e.fs.activeSeg + 1,
          nextUuid := e.fs.nextUuid + 1 } } := by
  rw [rotateAndCompact] at h
  simp only [Option.bind_eq_bind, Option.bind_eq_some, Option.some.injEq] at h
  obtain ⟨seg, hseg, data, hdata, records, hrecords, items, hitems, tempRows, htemp, hfinal⟩ := h
  exact ⟨seg, data, records, items, tempRows, hseg, hdata, hrecords, hitems, htemp,
    hfinal.symm⟩

/-- C2 (counterexample to the claim as stated): a reachable engine state —
segment 1 holds three records `A(pk 0)`, `B(pk 1)`, `A(pk 0)` but this
handle has only refreshed the first, so its memtable is `{0 ↦ (1,0)}` and
`refresh_next_logkey = (1,1)` — on which `do_maintenance` rotates and
compacts; afterwards `refresh_next_logkey` is still `(1,1)` (not reset to
`(1,0)`), and the memtable was not rebuilt: a drop-and-replay of compacted
segment 1 would map pk 1 to `(1,1)`, but the memtable has no entry for pk 1
at all.  The claim's disjunction evaluates to `false`. -/
theorem claim_C2_counterexample :
    (doMaintenanceTasks
        { fs := { segments := [(1, { version := 1, uuid := 0,
                                     rows := [(0, 10), (10, 10), (20, 10)] })],
                  dataFiles := [(0,
                    Record.serialize ⟨false, [.int 0]⟩ ++
                      (Record.serialize ⟨false, [.int 1]⟩ ++
                        Record.serialize ⟨false, [.int 0]⟩))],
                  activeSeg := 1, nextUuid := 1 },
          segmentSize := 72, primaryKeyIndex := 0,
          refreshNextLogKey := LogKey.new 1 1,
          primaryMemtable := [(.int 0, LogKey.new 1 0)] }).map (fun e1 =>
      decide (e1.refreshNextLogKey = LogKey.new 1 0 ∨
        dropAndRebuild e1 1 = some e1.primaryMemtable)) = some false := by
  decide

/-- C2 (amended): `rotate_and_compact` leaves `refresh_next_logkey` and the
primary memtable exactly as they were — the engine neither resets the
refresh cursor to `(N, 0)` nor replays segment `N`; memtable entries for the
compacted segment are not dropped or rebuilt.  (They keep resolving by
primary key only because the rewritten metadata preserves each row index's
primary-key association.) -/
theorem claim_C2_amended_no_rebuild (e e' : Engine) (h : rotateAndCompact e = some e') :
    e'.refreshNextLogKey = e.refreshNextLogKey ∧
    e'.primaryMemtable = e.primaryMemtable := by
  obtain ⟨_, _, _, _, _, _, _, _, _, _, hfinal⟩ := rotateAndCompact_eq_some h
  rw [hfinal]
  exact ⟨rfl, rfl⟩

/-- Witness for the amended C2 on a one-record segment
(`[0,1,0,0,0,0,0,0,0,7]` is `serialize (tombstone := false, [Int 7])`). -/
theorem claim_C2_witness :
    ({ fs := { segments := [(1, { version := 1, uuid := 1, rows := [(0, 10)] }),
                            (2, { version := 1, uuid := 1, rows := [] })],
               dataFiles := [(0, [0, 1, 0, 0, 0, 0, 0, 0, 0, 7]),
                             (1, [0, 1, 0, 0, 0, 0, 0, 0, 0, 7])],
               activeSeg := 2, nextUuid := 2 },
       segmentSize := 24, primaryKeyIndex := 0,
       refreshNextLogKey := LogKey.new 1 1,
       primaryMemtable := [(.int 7, LogKey.new 1 0)] } : Engine).refreshNextLogKey =
      LogKey.new 1 1 ∧
    ({ fs := { segments := [(1, { version := 1, uuid := 1, rows := [(0, 10)] }),
                            (2, { version := 1, uuid := 1, rows := [] })],
               dataFiles := [(0, [0, 1, 0, 0, 0, 0, 0, 0, 0, 7]),
                             (1, [0, 1, 0, 0, 0, 0, 0, 0, 0, 7])],
               activeSeg := 2, nextUuid := 2 },
       segmentSize := 24, primaryKeyIndex := 0,
       refreshNextLogKey := LogKey.new 1 1,
       primaryMemtable := [(.int 7, LogKey.new 1 0)] } : Engine).primaryMemtable =
      [(.int 7, LogKey.new 1 0)] :=
  claim_C2_amended_no_rebuild
    { fs := { segments := [(1, { version := 1, uuid := 0, rows := [(0, 10)] })],
              dataFiles := [(0, [0, 1, 0, 0, 0, 0, 0, 0, 0, 7])],
              activeSeg := 1, nextUuid := 1 },
      segmentSize := 24, primaryKeyIndex := 0,
      refreshNextLogKey := LogKey.new 1 1,
      primaryMemtable := [(.int 7, LogKey.new 1 0)] }
    { fs := { segments := [(1, { version := 1, uuid := 1, rows := [(0, 10)] }),
                           (2, { version := 1, uuid := 1, rows := [] })],
              dataFiles := [(0, [0, 1, 0, 0, 0, 0, 0, 0, 0, 7]),
                            (1, [0, 1, 0, 0, 0, 0, 0, 0, 0, 7])],
              activeSeg := 2, nextUuid := 2 },
      segmentSize := 24, primaryKeyIndex := 0,
      refreshNextLogKey := LogKey.new 1 1,
      primaryMemtable := [(.int 7, LogKey.new 1 0)] }
    (by decide)

/-- C3 (counterexample to the claim as stated): after rotating the
one-record segment 1, the header of `metadata.2` references data-file UUID 1
— the *same* UUID the compacted segment 1's rewritten header references; the
claimed distinct data file for segment 2 does not exist (engine.rs lines
711-720 reuse `new_data_uuid`). -/
theorem claim_C3_counterexample :
    ((rotateAndCompact
        { fs := { segments := [(1, { version := 1, uuid := 0, rows := [(0, 10)] })],
                  dataFiles := [(0, [0, 1, 0, 0, 0, 0, 0, 0, 0, 7])],
                  activeSeg := 1, nextUuid := 1 },
          segmentSize := 24, primaryKeyIndex := 0,
          refreshNextLogKey := LogKey.new 1 1,
          primaryMemtable := [(.int 7, LogKey.new 1 0)] }).map (fun e' =>
      ((alookup 2 e'.fs.segments).map SegmentMeta.uuid,
       (alookup 1 e'.fs.segments).map SegmentMeta.uuid,
       decide ((alookup 2 e'.fs.segments).map SegmentMeta.uuid ≠
         (alookup 1 e'.fs.segments).map SegmentMeta.uuid),
       e'.fs.activeSeg))) =
      some (some 1, some 1, false, 2) := by
  decide

/-- C3 (amended): after a successful rotation of active segment `N`, a
metadata file for segment `N+1` exists with a version-1 header, the `active`
link points at segment `N+1`, and the referenced data file exists — but the
header of `metadata.<N+1>` references the *same* newly created data file as
the compacted segment `N`'s rewritten metadata; no separate data file is
created for segment `N+1`. -/
theorem claim_C3_amended_rotation_layout (e e' : Engine) (N : Nat)
    (hN : e.fs.activeSeg = N) (h : rotateAndCompact e = some e') :
    alookup (N + 1) e'.fs.segments =
      some { version := 1, uuid := e.fs.nextUuid, rows := [] } ∧
    (∃ rowsN, alookup N e'.fs.segments =
      some { version := 1, uuid := e.fs.nextUuid, rows := rowsN }) ∧
    (∃ content, alookup e.fs.nextUuid e'.fs.dataFiles = some content) ∧
    e'.fs.activeSeg = N + 1 ∧
    (alookup (N + 1) e'.fs.segments).map SegmentMeta.uuid =
      (alookup N e'.fs.segments).map SegmentMeta.uuid := by
  obtain ⟨seg, data, records, items, tempRows, _, _, _, _, _, hfinal⟩ :=
    rotateAndCompact_eq_some h
  subst hN
  rw [hfinal]
  have hne : e.fs.activeSeg ≠ e.fs.activeSeg + 1 := by omega
  refine ⟨alookup_aset_self _ _ _, ⟨tempRows, ?_⟩, ⟨_, alookup_aset_self _ _ _⟩, rfl, ?_⟩
  · rw [alookup_aset_ne hne, alookup_aset_self]
  · rw [alookup_aset_self, alookup_aset_ne hne, alookup_aset_self]
    rfl

/-- Witness for the amended C3 on the one-record segment: the post-rotation
directory is written out explicitly. -/
theorem claim_C3_witness :
    alookup 2 [(1, ({ version := 1, uuid := 1, rows := [(0, 10)] } : SegmentMeta)),
               (2, { version := 1, uuid := 1, rows := [] })] =
      some { version := 1, uuid := 1, rows := [] } ∧
    (∃ rowsN, alookup 1 [(1, ({ version := 1, uuid := 1, rows := [(0, 10)] } : SegmentMeta)),
               (2, { version := 1, uuid := 1, rows := [] })] =
      some { version := 1, uuid := 1, rows := rowsN }) ∧
    (∃ content, alookup 1 [(0, [0, 1, 0, 0, 0, 0, 0, 0, 0, 7]),
               (1, [0, 1, 0, 0, 0, 0, 0, 0, 0, 7])] = some content) ∧
    (2 : Nat) = 2 ∧
    (alookup 2 [(1, ({ version := 1, uuid := 1, rows := [(0, 10)] } : SegmentMeta)),
               (2, { version := 1, uuid := 1, rows := [] })]).map SegmentMeta.uuid =
      (alookup 1 [(1, ({ version := 1, uuid := 1, rows := [(0, 10)] } : SegmentMeta)),
               (2, { version := 1, uuid := 1, rows := [] })]).map SegmentMeta.uuid :=
  claim_C3_amended_rotation_layout
    { fs := { segments := [(1, { version := 1, uuid := 0, rows := [(0, 10)] })],
              dataFiles := [(0, [0, 1, 0, 0, 0, 0, 0, 0, 0, 7])],
              activeSeg := 1, nextUuid := 1 },
      segmentSize := 24, primaryKeyIndex := 0,
      refreshNextLogKey := LogKey.new 1 1,
      primaryMemtable := [(.int 7, LogKey.new 1 0)] }
    { fs := { segments := [(1, { version := 1, uuid := 1, rows := [(0, 10)] }),
                           (2, { version := 1, uuid := 1, rows := [] })],
              dataFiles := [(0, [0, 1, 0, 0, 0, 0, 0, 0, 0, 7]),
                            (1, [0, 1, 0, 0, 0, 0, 0, 0, 0, 7])],
              activeSeg := 2, nextUuid := 2 },
      segmentSize := 24, primaryKeyIndex := 0,
      refreshNextLogKey := LogKey.new 1 1,
      primaryMemtable := [(.int 7, LogKey.new 1 0)] }
    1 rfl (by decide)

end LogDb
